import Mathlib

/-!
Verification of the cashflow dashboard ingestion and aggregation pipeline
(`src/app.py`), shallowly embedded in Lean 4.

Modelling conventions:
* Spreadsheet cell values are a tagged variant `Cell` (missing/NaN, text,
  number, calendar date).  Calendar dates are coded as natural numbers
  (a day index); monetary amounts are exact rationals `ℚ`.
* Python `str()` of a cell is modelled by `pyStr`; `str()` of a float by
  `strFloat`, which follows CPython's repr in both regimes: the exact
  decimal expansion with the least number of fractional digits (and a
  trailing `.0` for integers) when the decimal exponent is in `[-4, 16)`,
  and scientific notation (`"2e+16"`, `"1e-05"`) outside it.  `str()` of
  a timestamp is modelled as a digit string containing an internal dash,
  which is what makes `float()` fail on it, as in CPython.
* Unhandled exceptions of the load (the `KeyError` of
  `dropna(subset=...)` on a column-less concat, the `KeyError` of
  `raw.loc[0, c]` on a row-less sheet, the `IndexError` of
  `raw.columns[0]` on a column-less sheet) are modelled explicitly:
  `parse_cashflow_run`/`load_cash_run` return `none` for a crash and the
  main load maps it to the `crash` outcome, distinct from every
  user-facing signal.
* All string manipulation is done on `List Char`, with `String` wrappers
  at the boundary, so that everything reduces in the kernel.
* Fallible parsing returns `Option`; the bare `except` in `_to_number`
  is modelled by the parser `pyFloatL` returning `none` on any input that
  `float()` would reject (over the post-cleaning alphabet of digits,
  dots and minus signs).
-/

/- The Batteries rational arithmetic operations are `@[irreducible]`, which
blocks kernel evaluation of concrete amounts in `decide` proofs.  The
development below evaluates many concrete rationals, so restore the
ordinary reducibility of these operations (this changes nothing about
their definitions or correctness). -/
set_option allowUnsafeReducibility true

attribute [semireducible] Rat.add Rat.mul Rat.inv Rat.sub Rat.ofScientific Rat.div

/-- A raw spreadsheet cell: missing/NaN, text, numeric, or date-valued. -/
inductive Cell where
  | blank : Cell
  | text : String → Cell
  | num : ℚ → Cell
  | date : ℕ → Cell
deriving DecidableEq

/-! ### Character-level string utilities (Python `str` methods) -/

/-- Python whitespace characters stripped by `str.strip()` (ASCII subset). -/
def wsChar (c : Char) : Bool :=
  c = ' ' || c = '\t' || c = '\n' || c = '\r'

/-- `str.strip()`: drop whitespace from the left end. -/
def trimLeft (l : List Char) : List Char := l.dropWhile wsChar

/-- `str.strip()`: drop whitespace from both ends. -/
def trimL (l : List Char) : List Char :=
  (trimLeft ((trimLeft l).reverse)).reverse

/-- `str.strip()` on a `String`. -/
def trimS (s : String) : String := String.mk (trimL s.toList)

/-- The non-breaking space character U+00A0. -/
def nbsp : Char := Char.ofNat 160

/-- Does a character list start with the given pattern? -/
def startsWithL : List Char → List Char → Bool
  | [], _ => true
  | _ :: _, [] => false
  | p :: ps, c :: cs => p = c && startsWithL ps cs

/-- Python `in` on strings: substring occurrence. -/
def subInL (pat : List Char) : List Char → Bool
  | [] => pat.isEmpty
  | c :: rest => startsWithL pat (c :: rest) || subInL pat rest

/-! ### The value normalizer `_to_number` (src/app.py lines 30-46) -/

/-- Numeric value of a digit character. -/
def charVal (c : Char) : ℕ := c.toNat - 48

/-- Value of a digit string read most-significant first
(Python `float` mantissa accumulation). -/
def digitsVal (l : List Char) : ℕ := l.foldl (fun a c => 10 * a + charVal c) 0

/-- Split a leading minus sign off a character list. -/
def splitSign (l : List Char) : Bool × List Char :=
  match l with
  | [] => (false, [])
  | c :: t => if c = '-' then (true, t) else (false, c :: t)

/-- The rational denoted by an optional sign, integer digits, fractional
digits and a fractional length (`float("i.f")` exactly, as a rational). -/
def mkQ (neg : Bool) (i f k : ℕ) : ℚ :=
  let n : ℤ := (i * 10 ^ k + f : ℕ)
  Rat.divInt (if neg then -n else n) ((10 : ℤ) ^ k)

/-- Python `float()` on a cleaned string over the alphabet of digits,
`.` and `-`: an optional leading minus, digits with at most one dot and
at least one digit; anything else raises, i.e. returns `none` here. -/
def pyFloatL (l : List Char) : Option ℚ :=
  let p := splitSign l
  let ip := p.2.takeWhile Char.isDigit
  let rest := p.2.dropWhile Char.isDigit
  match rest with
  | [] => if ip.isEmpty then none else some (mkQ p.1 (digitsVal ip) 0 0)
  | c :: fr =>
    if c = '.' && fr.all Char.isDigit && !(ip.isEmpty && fr.isEmpty) then
      some (mkQ p.1 (digitsVal ip) (digitsVal fr) fr.length)
    else none

/-- Cleaning steps of `_to_number` after the empty/"nan" test:
replace NBSP by space, delete spaces, comma-to-dot when no dot is present,
then strip every character that is not a digit, dot or minus
(`re.sub(r"[^\d\.\-]", "", s)`). -/
def cleanChars (l : List Char) : List Char :=
  let s1 := (l.map (fun c => if c = nbsp then ' ' else c)).filter (fun c => !(c = ' '))
  let s2 := if s1.contains ',' && !(s1.contains '.') then
              s1.map (fun c => if c = ',' then '.' else c)
            else s1
  s2.filter (fun c => c.isDigit || c = '.' || c = '-')

/-- `_to_number` on an already-stringified value (the body after
`s = str(x).strip()`): empty or "nan" gives `None`, otherwise clean and
parse, never raising. -/
def toNumberCore (l : List Char) : Option ℚ :=
  let s := trimL l
  if s.isEmpty || s.map Char.toLower = ['n', 'a', 'n'] then none
  else pyFloatL (cleanChars s)

/-- `_to_number` restricted to string input. -/
def toNumberStr (s : String) : Option ℚ := toNumberCore s.toList

/-! ### Python `str()` of floats and cells -/

/-- The character for digit `n < 10`. -/
def digitChar (n : ℕ) : Char := Char.ofNat (48 + n)

/-- Decimal digit characters, fuel-based so that the kernel can evaluate
it (the fuel is an upper bound on the number itself). -/
def natCharsAux : ℕ → ℕ → List Char
  | 0, _ => []
  | f + 1, n =>
    if n < 10 then [digitChar n]
    else natCharsAux f (n / 10) ++ [digitChar (n % 10)]

/-- Decimal digit characters of a natural number, most significant first. -/
def natChars (n : ℕ) : List Char := natCharsAux (n + 1) n

/-- Number of fractional digits Python prints for a float whose exact
value is `q`: the least `k ≤ q.den` with `q.den ∣ 10 ^ k`. -/
def strFracLen (d : ℕ) : ℕ :=
  ((List.range (d + 1)).find? (fun k => decide (d ∣ 10 ^ k))).getD d

/-- Decimal exponent of the float with exact value `q`
(`floor (log10 |q|)`, and 0 for `q = 0`), read off the digit string:
the significand is `m / 10 ^ K` with `m` having `L` digits, so the
leading digit sits at position `L - 1 - K`.  CPython's `repr` prints
positionally exactly when this exponent lies in `[-4, 16)` and switches
to scientific notation (`"2e+16"`, `"1e-05"`) outside it. -/
def decExp (q : ℚ) : ℤ :=
  let K := strFracLen q.den
  let m := q.num.natAbs * 10 ^ K / q.den
  ((natChars m).length : ℤ) - 1 - (K : ℤ)

/-- Strip trailing zero digits (the shortest-repr mantissa). -/
def stripTrailingZeros (l : List Char) : List Char :=
  (l.reverse.dropWhile (fun c => c = '0')).reverse

/-- The exponent suffix of a scientific-notation `str(float)`:
`e+NN` / `e-NN`, with the exponent padded to at least two digits. -/
def expChars (e : ℤ) : List Char :=
  let ds := natChars e.natAbs
  'e' :: (if e < 0 then '-' else '+') :: (List.replicate (2 - ds.length) '0' ++ ds)

/-- Digit part of `str(float)`, sign excluded.  In the positional regime
(decimal exponent in `[-4, 16)`): integer digits, a dot, then the exact
fractional digits (`"x.0"` for integers).  Outside it, CPython's
scientific notation: the mantissa with trailing zeros stripped (a bare
digit when nothing remains after it, as in `"2e+16"`) and the `e±NN`
suffix. -/
def strFloatCore (q : ℚ) : List Char :=
  let K := strFracLen q.den
  let m := q.num.natAbs * 10 ^ K / q.den
  if -4 ≤ decExp q ∧ decExp q < 16 then
    let s := natChars (m % 10 ^ K)
    natChars (m / 10 ^ K) ++ '.' :: (List.replicate (K - s.length) '0' ++ s)
  else
    match stripTrailingZeros (natChars m) with
    | [] => '0' :: expChars (decExp q)
    | d :: rest => d :: ((if rest.isEmpty then [] else '.' :: rest) ++ expChars (decExp q))

/-- `str()` of the float with exact value `q` (character list). -/
def strFloatL (q : ℚ) : List Char :=
  if q < 0 then '-' :: strFloatCore q else strFloatCore q

/-- `str()` of the float with exact value `q`. -/
def strFloat (q : ℚ) : String := String.mk (strFloatL q)

/-- `str()` of a pandas timestamp coded by day `d`: modelled as digits
with an internal dash (as in `"2026-01-31 00:00:00"`), so that `float()`
fails on it after cleaning, exactly as in CPython. -/
def dateStr (d : ℕ) : String := String.mk (natChars d ++ '-' :: natChars d)

/-- Python `str(x)` of a cell (`astype(str)` / f-string semantics):
missing values print as `"nan"`. -/
def pyStr (c : Cell) : String :=
  match c with
  | .blank => "nan"
  | .text s => s
  | .num q => strFloat q
  | .date d => dateStr d

/-- `_to_number` (src/app.py 30-46): `pd.isna(x)` short-circuits missing
cells to `None`; otherwise the stringified cell is normalized. -/
def _to_number (c : Cell) : Option ℚ :=
  match c with
  | .blank => none
  | c => toNumberStr (pyStr c)

example : _to_number (.text "2 908 937 442,38") = some (290893744238 / 100 : ℚ) := by decide
example : _to_number (.text "3500000000") = some (3500000000 : ℚ) := by decide
example : _to_number (.text "1 234,56") = some (123456 / 100 : ℚ) := by decide
example : _to_number (.text "") = none := by decide
example : _to_number (.text "nan") = none := by decide
example : _to_number (.text ",;!?") = none := by decide
example : strFloat (123456 / 100 : ℚ) = "1234.56" := by decide
example : strFloat (3500000000 : ℚ) = "3500000000.0" := by decide
example : strFloat (-1 / 2 : ℚ) = "-0.5" := by decide

/-! ### The cashflow extractor `parse_cashflow` (src/app.py lines 78-133) -/

/-- One raw column of a sheet parsed with `header=2`: the column name
(`raw.columns` entry, itself a cell value) and the column's cells, whose
first entry is the sentinel row `raw.loc[0]` holding the month dates. -/
structure Col where
  header : Cell
  cells : List Cell
deriving DecidableEq

/-- `isinstance(v, pd.Timestamp)`. -/
def isTimestamp : Cell → Bool
  | .date _ => true
  | _ => false

/-- Date-column detection (src/app.py 83-93): columns whose sentinel
row-0 value is a timestamp; if none qualify, fall back to columns whose
header itself is a timestamp.  On a sheet with columns but no rows the
source's `raw.loc[0, c]` raises `KeyError` instead; that crash is
modelled in `parse_cashflow_run`, so this data path is only consulted
for sheets that have a row 0 (all columns of a parsed sheet share one
row index, so row 0 exists for every column exactly when it exists for
the first). -/
def dateColsOf (cols : List Col) : List Col :=
  let byRow0 := cols.filter (fun c => isTimestamp (c.cells.headD Cell.blank))
  if byRow0.isEmpty then cols.filter (fun c => isTimestamp c.header) else byRow0

/-- Label-column test (src/app.py 98-99):
`"Unnamed" in str(c) or str(c).strip() != ""`. -/
def labelPred (c : Col) : Bool :=
  subInL "Unnamed".toList (pyStr c.header).toList || !(trimS (pyStr c.header) == "")

/-- Label-column selection (src/app.py 97-103): the first of the three
leading columns passing `labelPred`, defaulting to the first column. -/
def labelColOf (cols : List Col) : Col :=
  ((cols.take 3).find? labelPred).getD (cols.headD ⟨Cell.blank, []⟩)

/-- `pd.to_datetime(x, errors="coerce")` applied to a melted column name:
a timestamp resolves to its date, anything non-date coerces to `NaT`
(date-valued strings are represented as `Cell.date` at the reader
boundary). -/
def pdToDatetime : Cell → Option ℕ
  | .date d => some d
  | _ => none

/-- One row of the normalized cashflow dataset, with the column set the
code builds: nullable fields are `Option`-typed so that the dropna
invariants are stated, not baked in. -/
structure CashflowRecord where
  Category : String
  Date : Option ℕ
  Amount : Option ℚ
  Scenario : String
  AmountSigned : Option ℚ
  AmountAbs : Option ℚ
deriving DecidableEq

/-- `parse_cashflow` (src/app.py 78-133): detect date columns and the
label column, drop the sentinel row, melt to long form (the `Date` value
of a melted row is the *column name*), clean, dropna on Date and Amount,
then tag the scenario and derive the signed/absolute amounts. -/
def parse_cashflow (cols : List Col) (scenario_label : String) : List CashflowRecord :=
  let dateCols := dateColsOf cols
  let labelCol := labelColOf cols
  let melted := dateCols.flatMap (fun dc =>
    ((labelCol.cells.drop 1).zip (dc.cells.drop 1)).map (fun p => (p.1, dc.header, p.2)))
  let cleaned := melted.map (fun t => (trimS (pyStr t.1), pdToDatetime t.2.1, _to_number t.2.2))
  let kept := cleaned.filter (fun t => t.2.1.isSome && t.2.2.isSome)
  kept.map (fun t =>
    { Category := t.1, Date := t.2.1, Amount := t.2.2, Scenario := scenario_label,
      AmountSigned := t.2.2, AmountAbs := t.2.2.map (fun a => |a|) })

/-- The load step (src/app.py 136-140), data path: parse each scenario
sheet when present (an absent sheet contributes an empty frame),
concatenate, and dropna on Date and Scenario (Scenario is a constant
non-NaN string, so only the Date condition can act).  The crash paths of
this step are modelled separately in `load_cash_run`. -/
def load_cash (sheetWith sheetNo : Option (List Col)) : List CashflowRecord :=
  let cash_with := match sheetWith with
    | some s => parse_cashflow s "With Partners"
    | none => []
  let cash_no := match sheetNo with
    | some s => parse_cashflow s "No Partners"
    | none => []
  (cash_with ++ cash_no).filter (fun r => r.Date.isSome)

/-- Does `parse_cashflow` raise on this sheet?  A sheet parsed to zero
columns reaches `label_col = raw.columns[0]` and raises `IndexError`;
a sheet with columns but no rows raises `KeyError` at `raw.loc[0, c]`
in the date-detection loop. -/
def sheetCrashes (cols : List Col) : Bool :=
  match cols with
  | [] => true
  | c :: _ => c.cells.isEmpty

/-- `parse_cashflow` including its exception behavior: `none` models an
unhandled `IndexError`/`KeyError` escaping the function, `some` the
normal result. -/
def parse_cashflow_run (cols : List Col) (scenario_label : String) :
    Option (List CashflowRecord) :=
  if sheetCrashes cols then none else some (parse_cashflow cols scenario_label)

/-- The load step including its exception behavior.  When both scenario
sheets are absent, `pd.concat` of two bare `pd.DataFrame()` values has
no columns and `cash.dropna(subset=["Date","Scenario"])` raises
`KeyError` (modelled `none`); a crash of either sheet's parse also
escapes.  Otherwise at least one parsed frame contributes the Date and
Scenario columns (even with zero rows) and the dropna succeeds. -/
def load_cash_run (sheetWith sheetNo : Option (List Col)) :
    Option (List CashflowRecord) :=
  match sheetWith, sheetNo with
  | none, none => none
  | some sw, none =>
    match parse_cashflow_run sw "With Partners" with
    | none => none
    | some a => some ((a ++ []).filter (fun r => r.Date.isSome))
  | none, some sn =>
    match parse_cashflow_run sn "No Partners" with
    | none => none
    | some b => some ((([] : List CashflowRecord) ++ b).filter (fun r => r.Date.isSome))
  | some sw, some sn =>
    match parse_cashflow_run sw "With Partners", parse_cashflow_run sn "No Partners" with
    | some a, some b => some ((a ++ b).filter (fun r => r.Date.isSome))
    | none, _ => none
    | some _, none => none

/-- The run path agrees with the data path: whenever the load completes
without an exception, its dataset is exactly `load_cash`. -/
theorem load_cash_run_eq {sheetWith sheetNo : Option (List Col)} {c : List CashflowRecord}
    (h : load_cash_run sheetWith sheetNo = some c) : c = load_cash sheetWith sheetNo := by
  cases sheetWith with
  | none => cases sheetNo with
    | none => cases h
    | some sn =>
      simp only [load_cash_run, parse_cashflow_run] at h
      split at h
      · cases h
      · rename_i a heqa
        have ha : a = parse_cashflow sn "No Partners" := by
          split at heqa
          · cases heqa
          · exact (Option.some_inj.mp heqa).symm
        rw [← Option.some_inj.mp h, ha]
        rfl
  | some sw => cases sheetNo with
    | none =>
      simp only [load_cash_run, parse_cashflow_run] at h
      split at h
      · cases h
      · rename_i a heqa
        have ha : a = parse_cashflow sw "With Partners" := by
          split at heqa
          · cases heqa
          · exact (Option.some_inj.mp heqa).symm
        rw [← Option.some_inj.mp h, ha]
        rfl
    | some sn =>
      simp only [load_cash_run, parse_cashflow_run] at h
      split at h
      · rename_i a b heqa heqb
        have ha : a = parse_cashflow sw "With Partners" := by
          split at heqa
          · cases heqa
          · exact (Option.some_inj.mp heqa).symm
        have hb : b = parse_cashflow sn "No Partners" := by
          split at heqb
          · cases heqb
          · exact (Option.some_inj.mp heqb).symm
        rw [← Option.some_inj.mp h, ha, hb]
        rfl
      · cases h
      · cases h

/-! ### Aggregates (src/app.py 184-207) -/

/-- One row of the `monthly` groupby table. -/
structure MonthlyRow where
  Date : ℕ
  Scenario : String
  Amount : ℚ
deriving DecidableEq

/-- The groupby key of a record; `none` when Date is NaN (pandas groupby
drops NaN keys). -/
def cashKey (r : CashflowRecord) : Option (ℕ × String) :=
  r.Date.map (fun d => (d, r.Scenario))

/-- The distinct (Date, Scenario) keys present in the dataset. -/
def monthlyKeys (cash : List CashflowRecord) : List (ℕ × String) :=
  (cash.filterMap cashKey).dedup

/-- Sum of AmountAbs over the records with a given key (pandas `sum`
skips NaN, hence `getD 0`). -/
def keySum (cash : List CashflowRecord) (k : ℕ × String) : ℚ :=
  ((cash.filter (fun r => cashKey r == some k)).map (fun r => r.AmountAbs.getD 0)).sum

/-- `monthly = cash_df.groupby(["Date","Scenario"]).agg(Amount=("AmountAbs","sum"))`
(src/app.py 184-187): one row per distinct key. -/
def monthly (cash : List CashflowRecord) : List MonthlyRow :=
  (monthlyKeys cash).map (fun k => ⟨k.1, k.2, keySum cash k⟩)

/-- Insertion step of `sort_values("Amount", ascending=False)`. -/
def insertDesc (r : MonthlyRow) : List MonthlyRow → List MonthlyRow
  | [] => [r]
  | h :: t => if h.Amount ≤ r.Amount then r :: h :: t else h :: insertDesc r t

/-- `sort_values("Amount", ascending=False)` (the claims do not depend on
how ties are ordered). -/
def sortDesc : List MonthlyRow → List MonthlyRow
  | [] => []
  | h :: t => insertDesc h (sortDesc t)

/-- `scenario_peak` (src/app.py 191-196): restrict `monthly` to the
scenario; `(None, None)` when empty, else the row of maximum Amount. -/
def scenario_peak (cash : List CashflowRecord) (scn : String) : Option (ℕ × ℚ) :=
  match sortDesc ((monthly cash).filter (fun r => r.Scenario == scn)) with
  | [] => none
  | h :: _ => some (h.Date, h.Amount)

/-- `value_on` (src/app.py 202-207): the summed monthly Amount at an
exact (date, scenario) key, `0.0` when the key is absent. -/
def value_on (cash : List CashflowRecord) (d : ℕ) (scn : String) : ℚ :=
  let m := (monthly cash).filter (fun r => r.Scenario == scn && r.Date == d)
  if m.isEmpty then 0 else (m.map (fun r => r.Amount)).sum

/-! ### Payables and the tab-2 filter (src/app.py 150-161, 287-297) -/

/-- One normalized payables row (sheet "Сводная", first six columns). -/
structure PayableRecord where
  Expense : String
  Amount : Option ℚ
  Paid : Option ℚ
  Urgency : String
  DueDate : Option ℕ
  ToPay : Option ℚ
deriving DecidableEq

/-- Lower-bound condition of the due-date filter:
`DueDate.isna() | (DueDate >= date_from)`, vacuous when no bound is set
(a `date_input` value is truthy exactly when it is not None). -/
def dueFromOk (f : Option ℕ) (r : PayableRecord) : Bool :=
  match f with
  | none => true
  | some fv => match r.DueDate with
    | none => true
    | some d => decide (fv ≤ d)

/-- Upper-bound condition: `DueDate.isna() | (DueDate <= date_to)`. -/
def dueToOk (t : Option ℕ) (r : PayableRecord) : Bool :=
  match t with
  | none => true
  | some tv => match r.DueDate with
    | none => true
    | some d => decide (d ≤ tv)

/-- Both due-date range conditions. -/
def dateOk (f t : Option ℕ) (r : PayableRecord) : Bool :=
  dueFromOk f r && dueToOk t r

/-- The tab-2 payables filter (src/app.py 287-297): urgency membership is
applied only when the selection is non-empty (`if urg_sel:`), then each
set date bound filters, keeping rows with absent DueDate; the metric is
the sum of ToPay with NaN as 0 (`fillna(0).sum()`). -/
def filter_payables (pay : List PayableRecord) (urg_sel : List String) (f t : Option ℕ) :
    List PayableRecord × ℚ :=
  let v1 := if urg_sel.isEmpty then pay else pay.filter (fun r => urg_sel.contains r.Urgency)
  let v2 := match f with
    | none => v1
    | some fv => v1.filter (dueFromOk (some fv))
  let v3 := match t with
    | none => v2
    | some tv => v2.filter (dueToOk (some tv))
  (v3, (v3.map (fun r => r.ToPay.getD 0)).sum)

/-! ### The locator `_pick_excel_file` and the main load (src/app.py 53-63, 169-179) -/

/-- Python `str.lower()` (ASCII range; sufficient for the `.XLSX` test). -/
def lowerS (s : String) : String := String.mk (s.toList.map Char.toLower)

/-- Python `str.endswith`. -/
def endsWithL (l suf : List Char) : Bool := l.drop (l.length - suf.length) == suf

/-- `f.lower().endswith(".xlsx")`. -/
def isXlsxName (f : String) : Bool := endsWithL (lowerS f).toList ".xlsx".toList

/-- `_pick_excel_file` (src/app.py 53-63): keep the `.xlsx` names from
the directory listing; `None` when there are none; otherwise the first
file containing a domain keyword (keys in priority order), else the
first listed. -/
def _pick_excel_file (files : List String) : Option String :=
  let xlsx := files.filter isXlsxName
  match xlsx with
  | [] => none
  | f0 :: _ =>
    match (["потребность", "upm", "юпм"].findSome?
        (fun key => xlsx.find? (fun f => subInL (lowerS key).toList (lowerS f).toList))) with
    | some f => some f
    | none => some f0

/-- Outcome of the main load block (src/app.py 169-179): a missing
source file and an empty assembled dataset are signalled by two distinct
`st.error` + `st.stop` branches; an unhandled exception of the load
(`crash`) reaches neither signal. -/
inductive LoadOutcome where
  | sourceNotFound
  | emptyDataset
  | crash
  | ok (cash : List CashflowRecord)
deriving DecidableEq

/-- The main load (src/app.py 169-179).  The workbook contents of the
two scenario sheets are passed explicitly (`none` = sheet absent). -/
def mainLoad (files : List String) (sheetWith sheetNo : Option (List Col)) : LoadOutcome :=
  match _pick_excel_file files with
  | none => .sourceNotFound
  | some _ =>
    match load_cash_run sheetWith sheetNo with
    | none => .crash
    | some cash => if cash.isEmpty then .emptyDataset else .ok cash

/-- A small concrete sheet: a label column and one date column detected
through the header fallback; the sentinel row is dropped. -/
def exSheet1 : List Col :=
  [⟨.text "Name", [.text "x", .text "Rent", .blank]⟩,
   ⟨.date 100, [.blank, .text "1 234,56", .text "oops"]⟩]

example : load_cash (some exSheet1) none =
    [{ Category := "Rent", Date := some 100, Amount := some (Rat.divInt 123456 100),
       Scenario := "With Partners", AmountSigned := some (Rat.divInt 123456 100),
       AmountAbs := some (Rat.divInt 123456 100) }] := by decide
example : _pick_excel_file ["readme.md", "Data UPM.xlsx", "a.xlsx"] = some "Data UPM.xlsx" := by
  decide
example : _pick_excel_file ["cashflow.csv"] = none := by decide
example : value_on (load_cash (some exSheet1) none) 100 "With Partners" =
    Rat.divInt 123456 100 := by decide
example : scenario_peak (load_cash (some exSheet1) none) "With Partners" =
    some (100, Rat.divInt 123456 100) := by decide
example : scenario_peak (load_cash (some exSheet1) none) "No Partners" = none := by decide

/-- The single record that `exSheet1` normalizes to. -/
def exRec1 : CashflowRecord :=
  { Category := "Rent", Date := some 100, Amount := some (Rat.divInt 123456 100),
    Scenario := "With Partners", AmountSigned := some (Rat.divInt 123456 100),
    AmountAbs := some (Rat.divInt 123456 100) }

/-! ### Claim theorems -/

/-- Every record produced by `parse_cashflow` survives the dropna on
Date and Amount and carries the given scenario label. -/
theorem mem_parse_cashflow {cols : List Col} {lbl : String} {r : CashflowRecord}
    (hr : r ∈ parse_cashflow cols lbl) :
    r.Date.isSome ∧ r.Amount.isSome ∧ r.Scenario = lbl ∧
    (∃ c ∈ (labelColOf cols).cells.drop 1, r.Category = trimS (pyStr c)) := by
  simp only [parse_cashflow, List.mem_map, List.mem_filter, List.mem_flatMap,
    Bool.and_eq_true] at hr
  obtain ⟨t, ⟨⟨dc, hdc, ht⟩, hdate, hamt⟩, rfl⟩ := hr
  refine ⟨hdate, hamt, rfl, ?_⟩
  obtain ⟨a, ha, p, hp, rfl⟩ := hdc
  subst ht
  exact ⟨p.1, (List.of_mem_zip hp).1, rfl⟩

/-- C1: every record in the normalized cashflow dataset produced by a
load has a non-null Date, a non-empty Scenario and a non-null Amount;
rows failing one of these never appear (they are dropped, not
defaulted). -/
theorem C1_normalized_dataset_invariant (sheetWith sheetNo : Option (List Col))
    (r : CashflowRecord) (hr : r ∈ load_cash sheetWith sheetNo) :
    r.Date.isSome ∧ r.Scenario ≠ "" ∧ r.Amount.isSome := by
  simp only [load_cash, List.mem_filter, List.mem_append] at hr
  obtain ⟨hmem, hdate⟩ := hr
  have hparse : r.Amount.isSome ∧ (r.Scenario = "With Partners" ∨ r.Scenario = "No Partners") := by
    rcases hmem with h | h
    · cases sheetWith with
      | none => simp at h
      | some s =>
        obtain ⟨-, ha, hs, -⟩ := mem_parse_cashflow h
        exact ⟨ha, Or.inl hs⟩
    · cases sheetNo with
      | none => simp at h
      | some s =>
        obtain ⟨-, ha, hs, -⟩ := mem_parse_cashflow h
        exact ⟨ha, Or.inr hs⟩
  refine ⟨hdate, ?_, hparse.1⟩
  rcases hparse.2 with h | h <;> rw [h] <;> decide

/-- Witness for C1 at a concrete load. -/
theorem C1_normalized_dataset_invariant_witness :
    exRec1.Date.isSome ∧ exRec1.Scenario ≠ "" ∧ exRec1.Amount.isSome :=
  C1_normalized_dataset_invariant (some exSheet1) none exRec1 (by decide)

/-- C2: on every cell value — including the empty string, the literal
"nan", and pure punctuation — the value normalizer returns either a
number or the absent marker; it is a total function (the bare `except`
turns any parse failure into `None`, never an exception). -/
theorem C2_value_normalizer_total :
    (∀ c : Cell, _to_number c = none ∨ ∃ q : ℚ, _to_number c = some q) ∧
    _to_number (.text "") = none ∧
    _to_number (.text "nan") = none ∧
    _to_number (.text ",;!?") = none ∧
    _to_number .blank = none := by
  refine ⟨fun c => ?_, by decide, by decide, by decide, rfl⟩
  cases h : _to_number c with
  | none => exact Or.inl rfl
  | some q => exact Or.inr ⟨q, rfl⟩

/-- C5: the value normalizer maps "2 908 937 442,38" to 2908937442.38,
"3500000000" to 3500000000.0, and "1 234,56" to 1234.56 (spaces and
non-breaking spaces removed, a comma with no period read as the decimal
point). -/
theorem C5_value_normalizer_examples :
    _to_number (.text "2 908 937 442,38") = some (2908937442.38 : ℚ) ∧
    _to_number (.text "3500000000") = some (3500000000.0 : ℚ) ∧
    _to_number (.text "1 234,56") = some (1234.56 : ℚ) ∧
    _to_number (.text "1 234,56") = some (1234.56 : ℚ) := by decide

/-- A sheet whose second data row has a whitespace-only label cell but a
valid amount under a date column. -/
def exSheet8 : List Col :=
  [⟨.text "Name", [.text "x", .text "Rent", .text "  "]⟩,
   ⟨.date 100, [.blank, .text "7", .text "5"]⟩]

/-- The record that the whitespace-only label row of `exSheet8`
contributes: its Category is empty after trimming. -/
def exRec8 : CashflowRecord :=
  { Category := "", Date := some 100, Amount := some 5,
    Scenario := "With Partners", AmountSigned := some 5, AmountAbs := some 5 }

/-- C8 counterexample: a source row whose label cell is a
whitespace-only string contributes a record whose Category is empty
after trimming, and the record is kept in the normalized dataset. -/
theorem C8_counterexample :
    exRec8 ∈ load_cash (some exSheet8) none ∧ exRec8.Category = "" := by decide

/-- C8 (amended): every record's Category is the trimmed Python string
form of some cell of the sheet's label column; a blank (missing) label
cell therefore yields the non-empty Category "nan", but a label cell
holding an empty or whitespace-only string yields an empty Category and
the record is still included — empty Categories are not filtered out. -/
theorem C8_category_is_trimmed_label (cols : List Col) (lbl : String)
    (r : CashflowRecord) (hr : r ∈ parse_cashflow cols lbl) :
    (∃ c ∈ (labelColOf cols).cells.drop 1, r.Category = trimS (pyStr c)) ∧
    trimS (pyStr Cell.blank) = "nan" :=
  ⟨(mem_parse_cashflow hr).2.2.2, by decide⟩

/-- Witness for C8 (amended) at a concrete sheet. -/
theorem C8_category_is_trimmed_label_witness :
    (∃ c ∈ (labelColOf exSheet8).cells.drop 1, exRec8.Category = trimS (pyStr c)) ∧
    trimS (pyStr Cell.blank) = "nan" :=
  C8_category_is_trimmed_label exSheet8 "With Partners" exRec8 (by decide)

/-- C10: with an empty urgency selection the filter block is skipped
entirely (`if urg_sel:`), so every record passes the urgency criterion
and only the date-range conditions act. -/
theorem C10_empty_urgency_disables_filter (pay : List PayableRecord) (f t : Option ℕ) :
    filter_payables pay [] f t =
      (pay.filter (dateOk f t),
       ((pay.filter (dateOk f t)).map (fun r => r.ToPay.getD 0)).sum) := by
  cases f with
  | none => cases t with
    | none =>
      have he : pay.filter (dateOk none none) = pay :=
        List.filter_eq_self.mpr fun r _ => rfl
      rw [he]; rfl
    | some tv =>
      have he : pay.filter (dateOk none (some tv)) = pay.filter (dueToOk (some tv)) :=
        List.filter_congr fun r _ => rfl
      rw [he]; rfl
  | some fv => cases t with
    | none =>
      have he : pay.filter (dateOk (some fv) none) = pay.filter (dueFromOk (some fv)) :=
        List.filter_congr fun r _ => by
          cases hv : dueFromOk (some fv) r <;> simp [dateOk, dueToOk, hv]
      rw [he]; rfl
    | some tv =>
      have he : pay.filter (dateOk (some fv) (some tv)) =
          (pay.filter (dueFromOk (some fv))).filter (dueToOk (some tv)) := by
        rw [List.filter_filter]
        exact List.filter_congr fun r _ => by
          simp [dateOk, Bool.and_comm]
      rw [he]; rfl

/-- The concrete payable used in the payables-filter claims. -/
def exPay1 : PayableRecord :=
  { Expense := "Electricity", Amount := some 10, Paid := some 5,
    Urgency := "CRITICAL", DueDate := none, ToPay := some 5 }

/-- C7 counterexample: with the empty urgency set, strict membership
would return no records, but the code returns every record — so the
claim as stated (quantified over every urgency set) fails. -/
theorem C7_counterexample :
    (filter_payables [exPay1] [] none none).1 = [exPay1] ∧
    [exPay1].filter (fun r => ([] : List String).contains r.Urgency && dateOk none none r)
      = [] := by decide

/-- C7 (amended): for every NON-EMPTY urgency selection, the payables
filter returns exactly the records whose Urgency is in the selection and
whose DueDate lies in the (optionally open) inclusive range, a record
with absent DueDate always passing both range bounds; the accompanying
total is the sum of ToPay over the returned subset.  (An empty selection
disables the urgency criterion entirely; see the C10 theorem.) -/
theorem C7_payables_filter (pay : List PayableRecord) (urg_sel : List String)
    (f t : Option ℕ) (hu : urg_sel ≠ []) :
    filter_payables pay urg_sel f t =
      (pay.filter (fun r => urg_sel.contains r.Urgency && dateOk f t r),
       ((pay.filter (fun r => urg_sel.contains r.Urgency && dateOk f t r)).map
         (fun r => r.ToPay.getD 0)).sum) := by
  have h1 : urg_sel.isEmpty = false := by
    cases urg_sel with
    | nil => exact absurd rfl hu
    | cons a l => rfl
  have hbase : ∀ p : PayableRecord → Bool,
      (if urg_sel.isEmpty = true then pay else pay.filter p) = pay.filter p := by
    intro p; rw [h1]; simp
  cases f with
  | none => cases t with
    | none =>
      have he : pay.filter (fun r => urg_sel.contains r.Urgency && dateOk none none r)
          = pay.filter (fun r => urg_sel.contains r.Urgency) :=
        List.filter_congr fun r _ => by
          cases hc : urg_sel.contains r.Urgency <;> simp [dateOk, dueFromOk, dueToOk, hc]
      simp only [filter_payables]
      rw [hbase, he]
    | some tv =>
      have he : pay.filter (fun r => urg_sel.contains r.Urgency && dateOk none (some tv) r)
          = pay.filter (fun r => dueToOk (some tv) r && urg_sel.contains r.Urgency) :=
        List.filter_congr fun r _ => by
          cases hc : urg_sel.contains r.Urgency <;>
            cases hv : dueToOk (some tv) r <;>
              simp [dateOk, dueFromOk, hc, hv]
      simp only [filter_payables]
      rw [hbase, List.filter_filter, he]
  | some fv => cases t with
    | none =>
      have he : pay.filter (fun r => urg_sel.contains r.Urgency && dateOk (some fv) none r)
          = pay.filter (fun r => dueFromOk (some fv) r && urg_sel.contains r.Urgency) :=
        List.filter_congr fun r _ => by
          cases hc : urg_sel.contains r.Urgency <;>
            cases hv : dueFromOk (some fv) r <;>
              simp [dateOk, dueToOk, hc, hv]
      simp only [filter_payables]
      rw [hbase, List.filter_filter, he]
    | some tv =>
      have he : pay.filter (fun r => urg_sel.contains r.Urgency && dateOk (some fv) (some tv) r)
          = pay.filter (fun r =>
              dueToOk (some tv) r && dueFromOk (some fv) r && urg_sel.contains r.Urgency) :=
        List.filter_congr fun r _ => by
          cases hc : urg_sel.contains r.Urgency <;>
            cases hv : dueFromOk (some fv) r <;>
              cases hw : dueToOk (some tv) r <;>
                simp [dateOk, hc, hv, hw]
      simp only [filter_payables]
      rw [hbase, List.filter_filter, List.filter_filter, he]

/-- Witness for C7 (amended) at a concrete filter call. -/
theorem C7_payables_filter_witness :
    filter_payables [exPay1] ["CRITICAL"] (some 3) (some 9) = ([exPay1], 5) := by
  rw [C7_payables_filter [exPay1] ["CRITICAL"] (some 3) (some 9) (by decide)]
  decide

/-- A present sheet with one non-date column and one row: it parses
without crashing and contributes zero records. -/
def exSheetNoDates : List Col := [⟨.text "Name", [.text "x"]⟩]

theorem mem_insertDesc {r x : MonthlyRow} {l : List MonthlyRow} :
    x ∈ insertDesc r l ↔ x = r ∨ x ∈ l := by
  induction l with
  | nil => simp [insertDesc]
  | cons h t ih =>
    simp only [insertDesc]
    split
    · simp [List.mem_cons]
    · simp only [List.mem_cons, ih]
      tauto

theorem mem_sortDesc {x : MonthlyRow} : ∀ {l : List MonthlyRow}, x ∈ sortDesc l ↔ x ∈ l := by
  intro l
  induction l with
  | nil => simp [sortDesc]
  | cons h t ih => simp [sortDesc, mem_insertDesc, ih]

theorem sortDesc_eq_nil {l : List MonthlyRow} (h : sortDesc l = []) : l = [] := by
  cases l with
  | nil => rfl
  | cons a t =>
    exact absurd (mem_sortDesc.mpr (List.mem_cons_self a t)) (by simp [h])

theorem sortDesc_head_max :
    ∀ (l : List MonthlyRow) (h : MonthlyRow) (t : List MonthlyRow),
      sortDesc l = h :: t → ∀ x ∈ l, x.Amount ≤ h.Amount := by
  intro l
  induction l with
  | nil => intro h t heq; cases heq
  | cons a l ih =>
    intro h t heq x hx
    simp only [sortDesc] at heq
    cases hsl : sortDesc l with
    | nil =>
      have hl : l = [] := sortDesc_eq_nil hsl
      rw [hsl] at heq
      simp only [insertDesc] at heq
      obtain ⟨rfl, -⟩ := List.cons.inj heq
      subst hl
      rcases List.mem_cons.mp hx with rfl | hx2
      · exact le_refl _
      · cases hx2
    | cons b t2 =>
      rw [hsl] at heq
      have hbmax : ∀ y ∈ l, y.Amount ≤ b.Amount := ih b t2 hsl
      simp only [insertDesc] at heq
      by_cases hba : b.Amount ≤ a.Amount
      · rw [if_pos hba] at heq
        obtain ⟨rfl, -⟩ := List.cons.inj heq
        rcases List.mem_cons.mp hx with rfl | hx2
        · exact le_refl _
        · exact le_trans (hbmax x hx2) hba
      · rw [if_neg hba] at heq
        obtain ⟨rfl, -⟩ := List.cons.inj heq
        rcases List.mem_cons.mp hx with rfl | hx2
        · exact le_of_lt (lt_of_not_le hba)
        · exact hbmax x hx2

/-- C3: if the monthly table has at least one row for scenario `s`,
`scenario_peak` returns a (Date, Amount) pair that is a row of the
monthly table for `s` whose Amount is the maximum monthly total of `s`;
if `s` has no rows, it returns the absent value (never a false zero,
never a crash). -/
theorem C3_scenario_peak (cash : List CashflowRecord) (s : String) :
    ((monthly cash).filter (fun r => r.Scenario == s) = [] →
      scenario_peak cash s = none) ∧
    ((monthly cash).filter (fun r => r.Scenario == s) ≠ [] →
      ∃ d a, scenario_peak cash s = some (d, a) ∧
        (⟨d, s, a⟩ : MonthlyRow) ∈ monthly cash ∧
        ∀ m ∈ monthly cash, m.Scenario = s → m.Amount ≤ a) := by
  constructor
  · intro h
    unfold scenario_peak
    rw [h]
    rfl
  · intro h
    cases hs : sortDesc ((monthly cash).filter (fun r => r.Scenario == s)) with
    | nil => exact absurd (sortDesc_eq_nil hs) h
    | cons b t =>
      refine ⟨b.Date, b.Amount, ?_, ?_, ?_⟩
      · unfold scenario_peak
        rw [hs]
      · have hb : b ∈ (monthly cash).filter (fun r => r.Scenario == s) :=
          mem_sortDesc.mp (by simp [hs])
        have hmem := (List.mem_filter.mp hb).1
        have hsc : b.Scenario = s := by
          have := (List.mem_filter.mp hb).2
          simpa using this
        have : (⟨b.Date, s, b.Amount⟩ : MonthlyRow) = b := by
          rw [← hsc]
        rw [this]
        exact hmem
      · intro m hm hms
        refine sortDesc_head_max _ b t hs m ?_
        rw [List.mem_filter]
        exact ⟨hm, by simp [hms]⟩

/-- Witness for C3 at a concrete dataset, on both the populated and the
empty scenario. -/
theorem C3_scenario_peak_witness :
    (∃ d a, scenario_peak (load_cash (some exSheet1) none) "With Partners" = some (d, a) ∧
      (⟨d, "With Partners", a⟩ : MonthlyRow) ∈ monthly (load_cash (some exSheet1) none) ∧
      ∀ m ∈ monthly (load_cash (some exSheet1) none),
        m.Scenario = "With Partners" → m.Amount ≤ a) ∧
    scenario_peak (load_cash (some exSheet1) none) "No Partners" = none :=
  ⟨(C3_scenario_peak (load_cash (some exSheet1) none) "With Partners").2 (by decide),
   (C3_scenario_peak (load_cash (some exSheet1) none) "No Partners").1 (by decide)⟩

/-! ### Groupby lemmas for `value_on` -/

theorem cashKey_beq (r : CashflowRecord) (d : ℕ) (s : String) :
    (cashKey r == some (d, s)) = (r.Date == some d && r.Scenario == s) := by
  cases hd : r.Date with
  | none => simp only [cashKey, hd]; rfl
  | some dv => simp only [cashKey, hd]; rfl

theorem mem_monthlyKeys {cash : List CashflowRecord} {k : ℕ × String} :
    k ∈ monthlyKeys cash ↔ ∃ r ∈ cash, cashKey r = some k := by
  simp [monthlyKeys, List.mem_dedup, List.mem_filterMap]

theorem filter_monthly_map (g : ℕ × String → ℚ) (d : ℕ) (s : String) :
    ∀ (keys : List (ℕ × String)), keys.Nodup →
      ((keys.map (fun k => (⟨k.1, k.2, g k⟩ : MonthlyRow))).filter
          (fun r => r.Scenario == s && r.Date == d)) =
        if (d, s) ∈ keys then [⟨d, s, g (d, s)⟩] else [] := by
  intro keys
  induction keys with
  | nil => intro _; simp
  | cons k ks ih =>
    intro hnd
    rw [List.nodup_cons] at hnd
    obtain ⟨hk, hnd2⟩ := hnd
    by_cases hq : k = (d, s)
    · subst hq
      rw [List.map_cons, List.filter_cons_of_pos (by simp), ih hnd2, if_neg hk,
        if_pos (List.mem_cons_self _ _)]
    · have hpf : ¬ (((⟨k.1, k.2, g k⟩ : MonthlyRow).Scenario == s &&
          (⟨k.1, k.2, g k⟩ : MonthlyRow).Date == d) = true) := by
        by_cases h1 : k.2 = s <;> by_cases h2 : k.1 = d
        · refine absurd ?_ hq
          rw [← h2, ← h1]
        all_goals simp [h1, h2]
      rw [List.map_cons, List.filter_cons_of_neg (by exact hpf), ih hnd2]
      by_cases hm : (d, s) ∈ ks
      · rw [if_pos hm, if_pos (List.mem_cons_of_mem k hm)]
      · refine (if_neg hm).trans (if_neg ?_).symm
        rw [List.mem_cons]
        rintro (he | he)
        · exact hq he.symm
        · exact hm he

/-- C4: `value_on` returns the sum of AmountAbs over exactly the
normalized records carrying the queried (Date, Scenario) key, and in
particular exactly 0 when no record has that key. -/
theorem C4_value_on (cash : List CashflowRecord) (d : ℕ) (s : String) :
    value_on cash d s =
      ((cash.filter (fun r => r.Date == some d && r.Scenario == s)).map
        (fun r => r.AmountAbs.getD 0)).sum ∧
    (cash.filter (fun r => r.Date == some d && r.Scenario == s) = [] →
      value_on cash d s = 0) := by
  have hfilter : (monthly cash).filter (fun r => r.Scenario == s && r.Date == d) =
      if (d, s) ∈ monthlyKeys cash then [⟨d, s, keySum cash (d, s)⟩] else [] :=
    filter_monthly_map (keySum cash) d s (monthlyKeys cash) (List.nodup_dedup _)
  have hsum : keySum cash (d, s) =
      ((cash.filter (fun r => r.Date == some d && r.Scenario == s)).map
        (fun r => r.AmountAbs.getD 0)).sum := by
    unfold keySum
    rw [List.filter_congr (fun r _ => cashKey_beq r d s)]
  have hmain : value_on cash d s =
      ((cash.filter (fun r => r.Date == some d && r.Scenario == s)).map
        (fun r => r.AmountAbs.getD 0)).sum := by
    simp only [value_on]
    rw [hfilter]
    by_cases hm : (d, s) ∈ monthlyKeys cash
    · rw [if_pos hm]
      simpa using hsum
    · rw [if_neg hm]
      have hfe : cash.filter (fun r => r.Date == some d && r.Scenario == s) = [] := by
        rw [List.filter_eq_nil_iff]
        intro r hr hp
        refine hm (mem_monthlyKeys.mpr ⟨r, hr, ?_⟩)
        have : (cashKey r == some (d, s)) = true := by rw [cashKey_beq]; exact hp
        exact eq_of_beq this
      rw [hfe]
      simp
  exact ⟨hmain, fun hfe => by rw [hmain, hfe]; simp⟩

/-- Witness for C4 with no matching record: the lookup is exactly 0. -/
theorem C4_value_on_witness : value_on [] 5 "X" = 0 :=
  (C4_value_on [] 5 "X").2 rfl

/-! ### Digit-printing lemmas for the idempotence claim -/

theorem charVal_digitChar {n : ℕ} (h : n < 10) : charVal (digitChar n) = n := by
  interval_cases n <;> decide

theorem digitChar_isDigit {n : ℕ} (h : n < 10) : (digitChar n).isDigit = true := by
  interval_cases n <;> decide

theorem natCharsAux_digits :
    ∀ (fuel n : ℕ), n < fuel → ∀ c ∈ natCharsAux fuel n, c.isDigit = true := by
  intro fuel
  induction fuel with
  | zero => intro n hn; omega
  | succ f ih =>
    intro n hn c hc
    by_cases h10 : n < 10
    · rw [natCharsAux, if_pos h10] at hc
      rcases List.mem_singleton.mp hc with rfl
      exact digitChar_isDigit h10
    · rw [natCharsAux, if_neg h10] at hc
      rcases List.mem_append.mp hc with hc1 | hc2
      · have hlt : n / 10 < f :=
          lt_of_lt_of_le (Nat.div_lt_self (by omega) (by omega)) (by omega)
        exact ih (n / 10) hlt c hc1
      · rcases List.mem_singleton.mp hc2 with rfl
        exact digitChar_isDigit (Nat.mod_lt n (by omega))

theorem natChars_digits {n : ℕ} : ∀ c ∈ natChars n, c.isDigit = true :=
  natCharsAux_digits (n + 1) n (Nat.lt_succ_self n)

theorem natCharsAux_ne_nil :
    ∀ (fuel n : ℕ), n < fuel → natCharsAux fuel n ≠ [] := by
  intro fuel
  induction fuel with
  | zero => intro n hn; omega
  | succ f ih =>
    intro n hn
    by_cases h10 : n < 10
    · rw [natCharsAux, if_pos h10]
      exact List.cons_ne_nil _ _
    · rw [natCharsAux, if_neg h10]
      exact fun he => by simpa using List.append_eq_nil.mp he

theorem natChars_ne_nil {n : ℕ} : natChars n ≠ [] :=
  natCharsAux_ne_nil (n + 1) n (Nat.lt_succ_self n)

theorem foldl_digits_acc :
    ∀ (l : List Char) (a : ℕ),
      l.foldl (fun a c => 10 * a + charVal c) a = a * 10 ^ l.length + digitsVal l := by
  intro l
  induction l with
  | nil => intro a; simp [digitsVal]
  | cons c t ih =>
    intro a
    have h1 : digitsVal (c :: t) = charVal c * 10 ^ t.length + digitsVal t := by
      rw [digitsVal, List.foldl_cons, ih]
      ring_nf
    rw [List.foldl_cons, ih, h1, List.length_cons]
    ring

theorem digitsVal_append (l1 l2 : List Char) :
    digitsVal (l1 ++ l2) = digitsVal l1 * 10 ^ l2.length + digitsVal l2 := by
  rw [digitsVal, List.foldl_append, ← digitsVal, foldl_digits_acc]

theorem digitsVal_replicate_zero (j : ℕ) (l : List Char) :
    digitsVal (List.replicate j '0' ++ l) = digitsVal l := by
  rw [digitsVal_append]
  have h0 : digitsVal (List.replicate j '0') = 0 := by
    induction j with
    | zero => rfl
    | succ i ih =>
      rw [List.replicate_succ, digitsVal, List.foldl_cons]
      have : (10 * 0 + charVal '0') = 0 := by decide
      rw [this, ← digitsVal, ih]
  rw [h0, zero_mul, zero_add]

theorem natCharsAux_digitsVal :
    ∀ (fuel n : ℕ), n < fuel → digitsVal (natCharsAux fuel n) = n := by
  intro fuel
  induction fuel with
  | zero => intro n hn; omega
  | succ f ih =>
    intro n hn
    by_cases h10 : n < 10
    · rw [natCharsAux, if_pos h10]
      have : digitsVal [digitChar n] = charVal (digitChar n) := by
        rw [digitsVal, List.foldl_cons, List.foldl_nil]
        omega
      rw [this, charVal_digitChar h10]
    · rw [natCharsAux, if_neg h10, digitsVal_append]
      have hlt : n / 10 < f :=
        lt_of_lt_of_le (Nat.div_lt_self (by omega) (by omega)) (by omega)
      rw [ih (n / 10) hlt]
      have : digitsVal [digitChar (n % 10)] = charVal (digitChar (n % 10)) := by
        rw [digitsVal, List.foldl_cons, List.foldl_nil]
        omega
      rw [this, charVal_digitChar (Nat.mod_lt n (by omega))]
      simp only [List.length_singleton, pow_one]
      omega

theorem digitsVal_natChars (n : ℕ) : digitsVal (natChars n) = n :=
  natCharsAux_digitsVal (n + 1) n (Nat.lt_succ_self n)

theorem natCharsAux_length_le :
    ∀ (fuel n k : ℕ), n < fuel → 1 ≤ k → n < 10 ^ k →
      (natCharsAux fuel n).length ≤ k := by
  intro fuel
  induction fuel with
  | zero => intro n k hn; omega
  | succ f ih =>
    intro n k hn hk hnk
    by_cases h10 : n < 10
    · rw [natCharsAux, if_pos h10]
      simpa using hk
    · rw [natCharsAux, if_neg h10, List.length_append, List.length_singleton]
      have hk2 : 2 ≤ k := by
        rcases Nat.lt_or_ge k 2 with h | h
        · interval_cases k
          norm_num at hnk
          omega
        · exact h
      have hlt : n / 10 < f :=
        lt_of_lt_of_le (Nat.div_lt_self (by omega) (by omega)) (by omega)
      have hdiv : n / 10 < 10 ^ (k - 1) := by
        rw [Nat.div_lt_iff_lt_mul (by omega)]
        have : 10 ^ (k - 1) * 10 = 10 ^ k := by
          rw [← pow_succ]
          congr 1
          omega
        omega
      have := ih (n / 10) (k - 1) hlt (by omega) hdiv
      omega

theorem natChars_length_le {n k : ℕ} (hk : 1 ≤ k) (hnk : n < 10 ^ k) :
    (natChars n).length ≤ k :=
  natCharsAux_length_le (n + 1) n k (Nat.lt_succ_self n) hk hnk

/-! ### Character-class lemmas: printed floats survive cleaning intact -/

/-- The alphabet of a printed float: digits, the dot, the minus sign. -/
def goodChar (c : Char) : Bool := c.isDigit || c = '.' || c = '-'

theorem goodChar_of_isDigit {c : Char} (h : c.isDigit = true) : goodChar c = true := by
  simp [goodChar, h]

theorem goodChar_not_ws {c : Char} (h : goodChar c = true) : wsChar c = false := by
  rcases Bool.or_eq_true_iff.mp h with h1 | h1
  · rcases Bool.or_eq_true_iff.mp h1 with h2 | h2
    · revert h2
      simp only [Char.isDigit, wsChar, decide_eq_true_eq, Bool.and_eq_true,
        Bool.or_eq_false_iff, decide_eq_false_iff_not]
      intro hv
      constructor
      · constructor
        · constructor
          · intro he; rw [he] at hv; revert hv; decide
          · intro he; rw [he] at hv; revert hv; decide
        · intro he; rw [he] at hv; revert hv; decide
      · intro he; rw [he] at hv; revert hv; decide
    · rw [decide_eq_true_eq] at h2
      rw [h2]; decide
  · rw [decide_eq_true_eq] at h1
    rw [h1]; decide

theorem goodChar_ne {c : Char} (h : goodChar c = true) {x : Char}
    (hx : x.isDigit = false) (hdot : ¬ x = '.') (hdash : ¬ x = '-') : ¬ c = x := by
  intro he
  subst he
  rcases Bool.or_eq_true_iff.mp h with h1 | h1
  · rcases Bool.or_eq_true_iff.mp h1 with h2 | h2
    · rw [h2] at hx; cases hx
    · exact hdot (by simpa using h2)
  · exact hdash (by simpa using h1)

theorem dropWhile_eq_self_of_head {l : List Char} {p : Char → Bool}
    (h : ∀ c ∈ l, p c = false) : l.dropWhile p = l := by
  cases l with
  | nil => rfl
  | cons c t =>
    rw [List.dropWhile_cons, h c (List.mem_cons_self c t)]
    simp

theorem trimL_eq_self {l : List Char} (h : ∀ c ∈ l, wsChar c = false) : trimL l = l := by
  have h1 : ∀ m : List Char, (∀ c ∈ m, wsChar c = false) → trimLeft m = m := fun m hm =>
    dropWhile_eq_self_of_head hm
  rw [trimL, h1 l h, h1 _ (fun c hc => h c (List.mem_reverse.mp hc)), List.reverse_reverse]

theorem map_eq_self {l : List Char} {f : Char → Char} (h : ∀ c ∈ l, f c = c) :
    l.map f = l := by
  induction l with
  | nil => rfl
  | cons c t ih =>
    rw [List.map_cons, h c (List.mem_cons_self c t),
      ih fun x hx => h x (List.mem_cons_of_mem c hx)]

theorem contains_eq_false {l : List Char} {a : Char} (h : ∀ c ∈ l, ¬ c = a) :
    l.contains a = false := by
  induction l with
  | nil => rfl
  | cons c t ih =>
    have hne : (a == c) = false :=
      beq_eq_false_iff_ne.mpr fun he => h c (List.mem_cons_self c t) he.symm
    have ht : t.contains a = false := ih fun x hx => h x (List.mem_cons_of_mem c hx)
    simp only [List.contains] at ht ⊢
    rw [List.elem_cons, hne, ht]

theorem cleanChars_eq_self {l : List Char} (h : ∀ c ∈ l, goodChar c = true) :
    cleanChars l = l := by
  have hmap : l.map (fun c => if c = nbsp then ' ' else c) = l :=
    map_eq_self fun c hc => by
      rw [if_neg (show ¬ c = nbsp from
        goodChar_ne (h c hc) (by decide) (by decide) (by decide))]
  have hfil1 : l.filter (fun c => !(c = ' ' : Bool)) = l :=
    List.filter_eq_self.mpr fun c hc => by
      have hsp : ¬ c = ' ' := goodChar_ne (h c hc) (by decide) (by decide) (by decide)
      simp [hsp]
  have hcomma : l.contains ',' = false :=
    contains_eq_false fun c hc => show ¬ c = ',' from
      goodChar_ne (h c hc) (by decide) (by decide) (by decide)
  have hfil2 : l.filter goodChar = l := List.filter_eq_self.mpr fun c hc => h c hc
  simp only [cleanChars, hmap, hfil1, hcomma, Bool.false_and, if_false]
  exact hfil2

/-! ### Parsing a printed float -/

theorem splitSign_dash (l : List Char) : splitSign ('-' :: l) = (true, l) := by
  simp [splitSign]

theorem splitSign_no_dash {c : Char} (l : List Char) (h : ¬ c = '-') :
    splitSign (c :: l) = (false, c :: l) := by
  simp [splitSign, h]

theorem takeWhile_digits_append {l1 : List Char} (h1 : ∀ c ∈ l1, c.isDigit = true)
    {x : Char} (hx : x.isDigit = false) (l2 : List Char) :
    (l1 ++ x :: l2).takeWhile Char.isDigit = l1 ∧
    (l1 ++ x :: l2).dropWhile Char.isDigit = x :: l2 := by
  induction l1 with
  | nil =>
    constructor
    · rw [List.nil_append, List.takeWhile_cons, hx]
      simp
    · rw [List.nil_append, List.dropWhile_cons, hx]
      simp
  | cons c t ih =>
    have hc : c.isDigit = true := h1 c (List.mem_cons_self c t)
    have iht := ih fun y hy => h1 y (List.mem_cons_of_mem c hy)
    constructor
    · rw [List.cons_append, List.takeWhile_cons, hc]
      simp only [if_true, iht.1]
    · rw [List.cons_append, List.dropWhile_cons, hc]
      simp only [if_true, iht.2]

/-- Denominator of `mkQ`: always a divisor of `10 ^ k`. -/
theorem mkQ_den (neg : Bool) (i f k : ℕ) : ((mkQ neg i f k).den : ℕ) ∣ 10 ^ k := by
  have h := Rat.den_dvd (if neg then -((i * 10 ^ k + f : ℕ) : ℤ) else ((i * 10 ^ k + f : ℕ) : ℤ))
    ((10 : ℤ) ^ k)
  have h2 : ((10 : ℤ) ^ k) = (((10 ^ k : ℕ) : ℤ)) := by push_cast; ring
  rw [h2] at h
  have h3 := Int.ofNat_dvd.mp h
  simpa [mkQ] using h3

theorem pyFloatL_den {l : List Char} {q : ℚ} (h : pyFloatL l = some q) :
    ∃ k, ((q.den : ℕ)) ∣ 10 ^ k := by
  rcases hrest : (splitSign l).2.dropWhile Char.isDigit with - | ⟨c, fr⟩ <;>
    simp only [pyFloatL, hrest] at h <;> split at h
  · cases h
  · exact ⟨0, by rw [← Option.some_inj.mp h]; exact mkQ_den _ _ _ _⟩
  · exact ⟨fr.length, by rw [← Option.some_inj.mp h]; exact mkQ_den _ _ _ _⟩
  · cases h

theorem toNumberCore_den {l : List Char} {q : ℚ} (h : toNumberCore l = some q) :
    ∃ k, ((q.den : ℕ)) ∣ 10 ^ k := by
  simp only [toNumberCore] at h
  split at h
  · cases h
  · exact pyFloatL_den h

/-- Parsing an optional sign, a nonempty digit block, a dot and a digit
block yields exactly the signed decimal value. -/
theorem pyFloatL_signed (neg : Bool) (ip fp : List Char)
    (h1 : ip ≠ []) (h2 : ∀ c ∈ ip, c.isDigit = true) (h3 : ∀ c ∈ fp, c.isDigit = true) :
    pyFloatL ((if neg then ['-'] else []) ++ (ip ++ '.' :: fp)) =
      some (mkQ neg (digitsVal ip) (digitsVal fp) fp.length) := by
  have hdot : ('.' : Char).isDigit = false := by decide
  have hsplit : splitSign ((if neg then ['-'] else []) ++ (ip ++ '.' :: fp)) =
      (neg, ip ++ '.' :: fp) := by
    cases neg with
    | true => rw [if_pos rfl]; exact splitSign_dash _
    | false =>
      rw [if_neg (by simp), List.nil_append]
      cases ip with
      | nil => exact absurd rfl h1
      | cons c t =>
        have hc : c.isDigit = true := h2 c (List.mem_cons_self c t)
        have hne : ¬ c = '-' := fun he => by rw [he] at hc; cases hc
        rw [List.cons_append]
        exact splitSign_no_dash _ hne
  have htake := takeWhile_digits_append h2 hdot fp
  have hemp : ip.isEmpty = false := by
    cases ip with
    | nil => exact absurd rfl h1
    | cons c t => rfl
  unfold pyFloatL
  rw [hsplit]
  simp only [htake.1, htake.2]
  have hall : fp.all Char.isDigit = true := by
    rw [List.all_eq_true]
    exact h3
  rw [hall, hemp]
  simp

/-! ### Every denominator arising from parsing divides a power of ten -/

theorem dvd_ten_pow_self {d j : ℕ} (hd : d ∣ 10 ^ j) : d ∣ 10 ^ d := by
  have hten : (10 : ℕ) ^ j ≠ 0 := by positivity
  have hd0 : d ≠ 0 := by
    rintro rfl
    exact hten (Nat.eq_zero_of_zero_dvd hd)
  rw [← Nat.factorization_le_iff_dvd hd0 (by positivity)]
  rw [Finsupp.le_iff]
  intro p hp
  rw [Nat.support_factorization] at hp
  have hpp : p.Prime := Nat.prime_of_mem_primeFactors hp
  have hpd : p ∣ d := Nat.dvd_of_mem_primeFactors hp
  have hp10 : p ∣ 10 := hpp.dvd_of_dvd_pow (hpd.trans hd)
  have hfa : 1 ≤ (10 : ℕ).factorization p :=
    hpp.factorization_pos_of_dvd (by norm_num) hp10
  have hle : d.factorization p ≤ d := by
    have hdvd : p ^ d.factorization p ∣ d := Nat.ordProj_dvd d p
    have hlep : p ^ d.factorization p ≤ d := Nat.le_of_dvd (Nat.pos_of_ne_zero hd0) hdvd
    have hltp : d.factorization p < p ^ d.factorization p :=
      Nat.lt_pow_self hpp.one_lt _
    omega
  have h2 : (10 ^ d).factorization p = d * (10 : ℕ).factorization p := by
    rw [Nat.factorization_pow]
    simp
  rw [h2]
  have h3 : d * 1 ≤ d * (10 : ℕ).factorization p := Nat.mul_le_mul_left d hfa
  omega

theorem strFracLen_dvd {d : ℕ} (hd : d ∣ 10 ^ d) : d ∣ 10 ^ strFracLen d := by
  unfold strFracLen
  cases hf : (List.range (d + 1)).find? (fun k => decide (d ∣ 10 ^ k)) with
  | none => simpa using hd
  | some k =>
    have := List.find?_some hf
    simpa using this

/-! ### The roundtrip: parsing a printed float recovers the value -/

theorem toLower_digit {c : Char} (h : c.isDigit = true) : c.toLower = c := by
  simp only [Char.isDigit, Bool.and_eq_true, decide_eq_true_eq] at h
  unfold Char.toLower
  rw [if_neg]
  rintro ⟨ha, hb⟩
  have h2 : c.val.toNat ≤ 57 := UInt32.toNat_le_of_le (by norm_num) h.2
  have h3 : Char.toNat c = c.val.toNat := rfl
  omega

theorem digit_ne_n {c : Char} (h : c.isDigit = true) : ¬ c = 'n' := by
  intro he
  rw [he] at h
  cases h

/-- `float("i.0")` with one printed zero equals `float("i")`. -/
theorem mkQ_one_zero (neg : Bool) (i : ℕ) : mkQ neg i 0 1 = mkQ neg i 0 0 := by
  unfold mkQ
  have h1 : ((i * 10 ^ 1 + 0 : ℕ) : ℤ) = ((i : ℤ)) * 10 := by push_cast; ring
  have h2 : ((i * 10 ^ 0 + 0 : ℕ) : ℤ) = ((i : ℤ)) := by push_cast; ring
  cases neg with
  | false =>
    simp only [if_false, Bool.false_eq_true, h1, h2]
    rw [show ((10 : ℤ) ^ 1) = 1 * 10 by ring, Rat.divInt_mul_right (by norm_num)]
    norm_num
  | true =>
    simp only [if_true, h1, h2]
    rw [show (-(((i : ℤ)) * 10)) = -((i : ℤ)) * 10 by ring,
      show ((10 : ℤ) ^ 1) = 1 * 10 by ring, Rat.divInt_mul_right (by norm_num)]
    norm_num

/-- The printed digits of `q` parse back to exactly `q`. -/
theorem mkQ_eq (q : ℚ) (K : ℕ) (hK : ((q.den : ℕ)) ∣ 10 ^ K) :
    mkQ (decide (q < 0)) (q.num.natAbs * 10 ^ K / q.den / 10 ^ K)
      (q.num.natAbs * 10 ^ K / q.den % 10 ^ K) K = q := by
  have htd : q.den * (10 ^ K / q.den) = 10 ^ K := Nat.mul_div_cancel' hK
  have ht0 : 10 ^ K / q.den ≠ 0 := by
    intro h0
    rw [h0, Nat.mul_zero] at htd
    exact absurd htd.symm (by positivity)
  have hm : q.num.natAbs * 10 ^ K / q.den = q.num.natAbs * (10 ^ K / q.den) :=
    Nat.mul_div_assoc _ hK
  have hif : q.num.natAbs * (10 ^ K / q.den) / 10 ^ K * 10 ^ K +
      q.num.natAbs * (10 ^ K / q.den) % 10 ^ K
      = q.num.natAbs * (10 ^ K / q.den) :=
    Nat.div_add_mod' _ _
  unfold mkQ
  dsimp only
  rw [hm, hif]
  have hden : ((10 : ℤ) ^ K) = ((q.den : ℤ)) * ((10 ^ K / q.den : ℕ) : ℤ) := by
    have := congrArg (fun n : ℕ => (n : ℤ)) htd
    push_cast at this ⊢
    omega
  by_cases hq : q < 0
  · rw [if_pos (by exact decide_eq_true hq), hden]
    have hnum : ((q.num.natAbs : ℤ)) = -q.num := by
      rw [← Int.abs_eq_natAbs]
      exact abs_of_neg (by exact_mod_cast (by simpa using Rat.num_nonneg.not.mpr (not_le.mpr hq) : ¬ 0 ≤ q.num) |> not_le.mp)
    have hn : -(((q.num.natAbs * (10 ^ K / q.den) : ℕ)) : ℤ) =
        q.num * ((10 ^ K / q.den : ℕ) : ℤ) := by
      rw [Nat.cast_mul, hnum]
      ring
    rw [hn, Rat.divInt_mul_right (by exact_mod_cast ht0), Rat.num_divInt_den]
  · rw [if_neg (by simp [hq]), hden]
    have hnum : ((q.num.natAbs : ℤ)) = q.num :=
      Int.natAbs_of_nonneg (by exact_mod_cast Rat.num_nonneg.mpr (not_lt.mp hq))
    have hn : (((q.num.natAbs * (10 ^ K / q.den) : ℕ)) : ℤ) =
        q.num * ((10 ^ K / q.den : ℕ) : ℤ) := by
      rw [Nat.cast_mul, hnum]
    rw [hn, Rat.divInt_mul_right (by exact_mod_cast ht0), Rat.num_divInt_den]

/-- Printing a parseable rational that falls in the positional-repr
regime and normalizing the printed string recovers exactly the same
rational. -/
theorem strFloat_roundtrip {q : ℚ} (hden : ∃ j, ((q.den : ℕ)) ∣ 10 ^ j)
    (hreg : -4 ≤ decExp q ∧ decExp q < 16) :
    toNumberCore (strFloatL q) = some q := by
  obtain ⟨j, hj⟩ := hden
  have hK : ((q.den : ℕ)) ∣ 10 ^ strFracLen q.den := strFracLen_dvd (dvd_ten_pow_self hj)
  set K := strFracLen q.den with hKdef
  set m := q.num.natAbs * 10 ^ K / q.den with hmdef
  set fp := List.replicate (K - (natChars (m % 10 ^ K)).length) '0' ++ natChars (m % 10 ^ K)
    with hfpdef
  set ip := natChars (m / 10 ^ K) with hipdef
  have hcore : strFloatCore q = ip ++ '.' :: fp := by
    simp only [strFloatCore]
    rw [if_pos hreg]
  have hL : strFloatL q = (if decide (q < 0) then ['-'] else []) ++ (ip ++ '.' :: fp) := by
    rw [strFloatL, hcore]
    by_cases hq : q < 0
    · rw [if_pos hq, if_pos (decide_eq_true hq)]
      rfl
    · rw [if_neg hq, if_neg (by simp [hq]), List.nil_append]
  have hip_dig : ∀ c ∈ ip, c.isDigit = true := fun c hc => natChars_digits c hc
  have hip_ne : ip ≠ [] := natChars_ne_nil
  have hfp_dig : ∀ c ∈ fp, c.isDigit = true := by
    intro c hc
    rcases List.mem_append.mp hc with h1 | h2
    · rw [List.eq_of_mem_replicate h1]; decide
    · exact natChars_digits c h2
  have hgood : ∀ c ∈ strFloatL q, goodChar c = true := by
    intro c hc
    rw [hL] at hc
    rcases List.mem_append.mp hc with h1 | h2
    · by_cases hq : q < 0
      · rw [if_pos (decide_eq_true hq)] at h1
        rcases List.mem_singleton.mp h1 with rfl
        decide
      · rw [if_neg (by simp [hq])] at h1
        cases h1
    · rcases List.mem_append.mp h2 with h3 | h4
      · exact goodChar_of_isDigit (hip_dig c h3)
      · rcases List.mem_cons.mp h4 with rfl | h5
        · decide
        · exact goodChar_of_isDigit (hfp_dig c h5)
  have hne : strFloatL q ≠ [] := by
    rw [hL]
    intro habs
    rcases List.append_eq_nil.mp habs with ⟨-, h2⟩
    rcases List.append_eq_nil.mp h2 with ⟨h3, -⟩
    exact hip_ne h3
  have htrim : trimL (strFloatL q) = strFloatL q :=
    trimL_eq_self fun c hc => goodChar_not_ws (hgood c hc)
  have hnan : ¬ (strFloatL q).map Char.toLower = ['n', 'a', 'n'] := by
    rw [hL]
    obtain ⟨c, cs, hip⟩ := List.exists_cons_of_ne_nil hip_ne
    by_cases hq : q < 0
    · rw [if_pos (decide_eq_true hq), List.singleton_append, List.map_cons]
      intro habs
      exact absurd (List.cons.inj habs).1 (by decide)
    · rw [if_neg (by simp [hq]), List.nil_append, hip, List.cons_append, List.map_cons]
      intro habs
      have hcd : c.isDigit = true := hip_dig c (by rw [hip]; exact List.mem_cons_self c cs)
      have h1 := (List.cons.inj habs).1
      rw [toLower_digit hcd] at h1
      exact digit_ne_n hcd h1
  have hie : (strFloatL q).isEmpty = false := by
    cases hsl : strFloatL q with
    | nil => exact absurd hsl hne
    | cons a l => rfl
  have hclean : cleanChars (strFloatL q) = strFloatL q := cleanChars_eq_self hgood
  have hparse : pyFloatL (strFloatL q) =
      some (mkQ (decide (q < 0)) (digitsVal ip) (digitsVal fp) fp.length) := by
    rw [hL]
    exact pyFloatL_signed (decide (q < 0)) ip fp hip_ne hip_dig hfp_dig
  have hdv_ip : digitsVal ip = m / 10 ^ K := digitsVal_natChars _
  have hdv_fp : digitsVal fp = m % 10 ^ K := by
    rw [hfpdef, digitsVal_replicate_zero, digitsVal_natChars]
  have hval : mkQ (decide (q < 0)) (digitsVal ip) (digitsVal fp) fp.length = q := by
    by_cases hK0 : K = 0
    · have hm0 : m % 10 ^ K = 0 := by rw [hK0, pow_zero, Nat.mod_one]
      have hfp0 : fp = ['0'] := by
        rw [hfpdef, hm0, hK0]
        rw [show natChars 0 = ['0'] from rfl]
        rfl
      have hmq := mkQ_eq q 0 (by rw [hK0] at hK; exact hK)
      have hmeq : q.num.natAbs * 10 ^ 0 / q.den = m := by rw [hmdef, hK0]
      rw [hmeq] at hmq
      have hz : m % 10 ^ 0 = 0 := by rw [pow_zero, Nat.mod_one]
      rw [hz] at hmq
      rw [hfp0, hdv_ip]
      rw [show digitsVal ['0'] = 0 from by decide,
        show (['0'] : List Char).length = 1 from rfl]
      rw [mkQ_one_zero, hK0]
      exact hmq
    · have hK1 : 1 ≤ K := by omega
      have hlen : fp.length = K := by
        rw [hfpdef, List.length_append, List.length_replicate]
        have hlt : m % 10 ^ K < 10 ^ K := Nat.mod_lt _ (by positivity)
        have := natChars_length_le hK1 hlt
        omega
      rw [hlen, hdv_ip, hdv_fp]
      exact mkQ_eq q K hK
  simp only [toNumberCore]
  rw [htrim, hie]
  rw [if_neg (by simp only [Bool.false_or, decide_eq_true_eq]; exact hnan)]
  rw [hclean, hparse, hval]

/-- C6 counterexample: idempotence fails where `str()` switches to
scientific notation: `"20000000000000000"` normalizes to `2e16`, whose
string form is `"2e+16"`; re-normalizing strips the `e` and `+` and
yields `216.0`, a different number. -/
theorem C6_counterexample :
    _to_number (.text "20000000000000000") = some ((20000000000000000 : ℚ)) ∧
    strFloat (20000000000000000 : ℚ) = "2e+16" ∧
    _to_number (.text (strFloat (20000000000000000 : ℚ))) = some ((216 : ℚ)) ∧
    ((216 : ℚ)) ≠ ((20000000000000000 : ℚ)) := by decide

/-- C6 (amended): the value normalizer is idempotent on every returned
number whose printed form is positional — decimal exponent in
`[-4, 16)`, i.e. `str()` uses no scientific notation: normalizing the
stringified form of such a number returns the same number.  Outside
that regime the stringified form carries an `e`, which the normalizer
strips, and idempotence fails (see the counterexample). -/
theorem C6_value_normalizer_idempotent (c : Cell) (q : ℚ)
    (h : _to_number c = some q) (hreg : -4 ≤ decExp q ∧ decExp q < 16) :
    _to_number (.text (strFloat q)) = some q := by
  have hden : ∃ j, ((q.den : ℕ)) ∣ 10 ^ j := by
    cases c with
    | blank => cases h
    | text s => exact toNumberCore_den h
    | num x => exact toNumberCore_den h
    | date d => exact toNumberCore_den h
  show toNumberCore (strFloatL q) = some q
  exact strFloat_roundtrip hden hreg

/-- Witness for C6 (amended) at a concrete parsed amount. -/
theorem C6_value_normalizer_idempotent_witness :
    _to_number (.text (strFloat (1234.56 : ℚ))) = some (1234.56 : ℚ) :=
  C6_value_normalizer_idempotent (.text "1 234,56") (1234.56 : ℚ) (by decide) (by decide)
